import Mathlib

/-!
Verification of the HDF compressed-element subsystem (hcomp.c) and the
memory-fill helper (hdfalloc.c) against the natural-language specification.

The C sources are shallowly embedded: machine integers `int32`/`intn` become
`Int` (all claims stay far from 2^31 wrap-around), `uint16`/`uint32` casts are
made explicit with `% 2^16` / `% 2^32`, buffers and the file image become
`List Nat` of byte values, and fallible routines return `Except`/`Option` or
carry an explicit error field.  Collaborator routines that live outside the
covered sources (the STDIO model layer of mstdio.c, the tag macros of hfile.h,
the raw file I/O of hfile.c) are modelled from the specification where a claim
needs them; each such definition says so in its doc comment.
-/

/-! ## Byte encoding primitives (spec 4.A)

Modelled from the spec: the `INT32ENCODE`/`UINT16ENCODE`/... macros live in
hdfi.h, which is not among the covered sources.  The spec describes them as
portable fixed-width big-endian encode/decode of i16/u16/i32/u32. -/

/-- Big-endian 2-byte encoding of a 16-bit unsigned value (UINT16ENCODE). -/
def u16BE (n : Nat) : List Nat :=
  [n / 256 % 256, n % 256]

/-- Big-endian 4-byte encoding of a 32-bit unsigned value (UINT32ENCODE). -/
def u32BE (n : Nat) : List Nat :=
  [n / 16777216 % 256, n / 65536 % 256, n / 256 % 256, n % 256]

/-- The C cast `(uint16)v` applied to a signed value: two's-complement
residue in `[0, 2^16)`. -/
def u16ofInt (i : Int) : Nat :=
  (i % 65536).toNat

/-- The C cast `(uint32)v` applied to a signed value: two's-complement
residue in `[0, 2^32)`. -/
def u32ofInt (i : Int) : Nat :=
  (i % 4294967296).toNat

/-- Big-endian 4-byte encoding of an `int32` value (INT32ENCODE): the bytes
of its two's-complement residue. -/
def int32BE (i : Int) : List Nat :=
  u32BE (u32ofInt i)

/-- Decode two big-endian bytes as a 16-bit unsigned value (UINT16DECODE);
each byte is masked with `& 0xff` as in the C macro. -/
def dec16 (a b : Nat) : Nat :=
  (a % 256) * 256 + b % 256

/-- Decode four big-endian bytes as a 32-bit unsigned value (UINT32DECODE). -/
def dec32u (a b c d : Nat) : Nat :=
  (a % 256) * 16777216 + (b % 256) * 65536 + (c % 256) * 256 + d % 256

/-- Reinterpret a 32-bit unsigned value as a signed `int32`
(two's complement). -/
def i32ofU32 (n : Nat) : Int :=
  if 2147483648 ≤ n then (n : Int) - 4294967296 else (n : Int)

/-- Decode four big-endian bytes as a signed `int32` (INT32DECODE). -/
def dec32i (a b c d : Nat) : Int :=
  i32ofU32 (dec32u a b c d)

/-! ## Error kinds (spec 7, the DFE codes of the C source) -/

/-- Error kinds used by the embedded routines; names follow the spec's error
taxonomy, each corresponding to a `DFE_` code in the C source. -/
inductive HErr where
  | Args            -- DFE_ARGS
  | Denied          -- DFE_DENIED
  | TooMany         -- DFE_TOOMANY
  | Range           -- DFE_RANGE
  | NoSpace         -- DFE_NOSPACE
  | NoFreeDD        -- DFE_NOFREEDD
  | BadCoder        -- DFE_BADCODER
  | BadModel        -- DFE_BADMODEL
  | BadNumType      -- DFE_BADNUMTYPE
  | CannotModify    -- DFE_CANTMOD
  | Model           -- DFE_MODEL (model layer reported failure)
  | WriteFail       -- DFE_WRITEERROR
  | Internal        -- DFE_INTERNAL
  deriving DecidableEq, Repr

/-! ## Buffer writes -/

/-- Overwrite the bytes of `buf` starting at offset `off` with `src`
(a positional `memcpy`/`HPwrite`; callers keep `off + src.length` within
the buffer). -/
def writeAt (buf : List Nat) (off : Nat) (src : List Nat) : List Nat :=
  buf.take off ++ src ++ buf.drop (off + src.length)

/-! ## Compressed-element access state (hcomp.c)

The parts of `accrec_t`, `compinfo_t` and the file image that the dispatch
routines `HCPseek`/`HCPread`/`HCPwrite` touch. -/

/-- State visible to the compressed-element dispatch routines:
`posn` is `access_rec->posn`, `length` is `info->length` (the uncompressed
logical length), `descOffset` is `info_dd->offset` (where the special-element
descriptor sits in the file), and `disk` is the file's byte image. -/
structure CompAccess where
  posn : Int
  length : Int
  descOffset : Nat
  disk : List Nat
  deriving DecidableEq, Repr

/-- Seek origins `DF_START` / `DF_CURRENT` / `DF_END` of hdf.h. -/
inductive Origin where
  | start
  | current
  | fromEnd
  deriving DecidableEq, Repr

/-- `HCPseek` (hcomp.c:871-894).  The offset is first adjusted by the origin
(`DF_CURRENT` adds `posn`, `DF_END` adds `info->length`); a negative result
fails with `DFE_RANGE` before any state changes.  The call into the model
layer's seek (mstdio.c, not among the covered sources) is represented by
`modelOk`; per spec 4.E.2 the STDIO model is the identity, and on its failure
`HCPseek` fails with `DFE_MODEL` before `posn` is updated. -/
def HCPseek (s : CompAccess) (offset : Int) (origin : Origin) (modelOk : Bool) :
    Except HErr Unit × CompAccess :=
  let offset := if origin = Origin.current then offset + s.posn else offset
  let offset := if origin = Origin.fromEnd then offset + s.length else offset
  if offset < 0 then (Except.error HErr.Range, s)
  else if modelOk = false then (Except.error HErr.Model, s)
  else (Except.ok (), { s with posn := offset })

/-- `HCPread` (hcomp.c:914-940).  A negative request fails with `DFE_RANGE`;
a zero request is replaced by `info->length - posn` (read to end of element);
otherwise a request past the end fails with `DFE_RANGE`.  The model layer's
read (spec 4.E.2: the STDIO model passes the bytes through unchanged) is
represented by `modelOk`; on success the returned value is the adjusted
length and `posn` advances by it. -/
def HCPread (s : CompAccess) (len : Int) (modelOk : Bool) :
    Except HErr Int × CompAccess :=
  if len < 0 then (Except.error HErr.Range, s)
  else
    let len2 := if len = 0 then s.length - s.posn else len
    if len ≠ 0 ∧ s.posn + len > s.length then (Except.error HErr.Range, s)
    else if modelOk = false then (Except.error HErr.Model, s)
    else (Except.ok len2, { s with posn := s.posn + len2 })

/-- `HCPwrite` (hcomp.c:960-1004).  A negative request fails with `DFE_RANGE`
before anything changes; the model layer's write is represented by `modelOk`.
On success `posn` advances by `len`, and when the new position exceeds the
stored uncompressed length, `info->length` is set to the new position and the
4-byte big-endian length field at descriptor offset + 4 is rewritten in the
file image (`INT32ENCODE` followed by `HPseek`/`HPwrite`, whose raw I/O is
modelled as a positional buffer write per spec 4.B). -/
def HCPwrite (s : CompAccess) (len : Int) (modelOk : Bool) :
    Except HErr Int × CompAccess :=
  if len < 0 then (Except.error HErr.Range, s)
  else if modelOk = false then (Except.error HErr.Model, s)
  else
    let posn2 := s.posn + len
    if posn2 > s.length then
      (Except.ok len,
        { posn := posn2, length := posn2, descOffset := s.descOffset,
          disk := writeAt s.disk (s.descOffset + 4) (int32BE posn2) })
    else (Except.ok len, { s with posn := posn2 })

/-! ## Compression header constants and structures (hcomp.c, hcompi.h) -/

/-- `COMP_HEADER_VERSION` (hcomp.c:87). -/
def COMP_HEADER_VERSION : Nat := 0

/-- `COMP_HEADER_LENGTH` (hcomp.c:88): size of the common header. -/
def COMP_HEADER_LENGTH : Nat := 14

/-- `COMP_START_BLOCK` (hcomp.c:89): initial length of a fresh element. -/
def COMP_START_BLOCK : Int := 1

/-- Modelled from the spec: `SPECIAL_COMP` is the u16 special code of
compressed elements (hfile.h, not among the covered sources; spec 4.E.1). -/
def SPECIAL_COMP : Nat := 3

/-- `COMP_MODEL_STDIO`, the sole model variant (hcompi.h enum). -/
def COMP_MODEL_STDIO : Nat := 0

/-- `COMP_CODE_NONE` (hcompi.h `comp_coder_t` enum). -/
def COMP_CODE_NONE : Nat := 0

/-- `COMP_CODE_RLE`. -/
def COMP_CODE_RLE : Nat := 1

/-- `COMP_CODE_NBIT`. -/
def COMP_CODE_NBIT : Nat := 2

/-- `COMP_CODE_SKPHUFF`. -/
def COMP_CODE_SKPHUFF : Nat := 3

/-- The caller-supplied NBIT parameters (`c_info->nbit` of hcompi.h):
number type, sign-extend flag, fill-one flag, start bit and bit length,
all `intn`/`int32` in C. -/
structure comp_info_nbit where
  nt : Int
  sign_ext : Int
  fill_one : Int
  start_bit : Int
  bit_len : Int
  deriving DecidableEq, Repr

/-- The NBIT coder state (`cinfo->coder_info.nbit_info`): `HCIinit_coder`
copies `start_bit` into `mask_off` and `bit_len` into `mask_len`, and
resolves `nt_size` from the number-type table. -/
structure nbit_coder_info where
  nt : Int
  sign_ext : Int
  fill_one : Int
  mask_off : Int
  mask_len : Int
  nt_size : Nat
  deriving DecidableEq, Repr

/-- The skipping-Huffman coder state (`cinfo->coder_info.skphuff_info`). -/
structure skphuff_coder_info where
  skip_size : Int
  deriving DecidableEq, Repr

/-- The coder half of `compinfo_t` (`comp_coder_info_t`): the variant code
plus the variant parameters (a C union, embedded as a product; only the arm
selected by `coder_type` is meaningful). -/
structure comp_coder_info_t where
  coder_type : Nat
  nbit : nbit_coder_info
  skphuff : skphuff_coder_info
  deriving DecidableEq, Repr

/-- The special-element information record `compinfo_t` as used by the
header writer: uncompressed length, ref of the backing compressed-data DD,
model variant and coder state. -/
structure compinfo_t where
  length : Int
  comp_ref : Nat
  model_type : Nat
  cinfo : comp_coder_info_t
  deriving DecidableEq, Repr

/-- Modelled from the spec: `DFKNTsize` resolves a number-type code to its
byte size from the number-type table (dfknat.c, not among the covered
sources; spec 4.E.3 says failure to resolve the size is a parse failure).
The table lists the standard DFNT codes; unlisted codes fail. -/
def DFKNTsize (nt : Int) : Option Nat :=
  if nt = 3 then some 1        -- DFNT_UCHAR8
  else if nt = 4 then some 1   -- DFNT_CHAR8
  else if nt = 5 then some 4   -- DFNT_FLOAT32
  else if nt = 6 then some 8   -- DFNT_FLOAT64
  else if nt = 20 then some 1  -- DFNT_INT8
  else if nt = 21 then some 1  -- DFNT_UINT8
  else if nt = 22 then some 2  -- DFNT_INT16
  else if nt = 23 then some 2  -- DFNT_UINT16
  else if nt = 24 then some 4  -- DFNT_INT32
  else if nt = 25 then some 4  -- DFNT_UINT32
  else none

/-- `HCIinit_coder` (hcomp.c:155-204): selects the coder variant, copies its
parameters into the coder state, and for NBIT resolves `nt_size` via
`DFKNTsize`, failing with `DFE_BADNUMTYPE` when the number type is unknown;
a variant outside NONE/RLE/NBIT/SKPHUFF fails with `DFE_BADCODER`. -/
def HCIinit_coder (coder_type : Nat) (cn : comp_info_nbit) (skp_size : Int) :
    Except HErr comp_coder_info_t :=
  let nbit0 : nbit_coder_info := ⟨0, 0, 0, 0, 0, 0⟩
  let skp0 : skphuff_coder_info := ⟨0⟩
  if coder_type = COMP_CODE_NONE then
    Except.ok ⟨COMP_CODE_NONE, nbit0, skp0⟩
  else if coder_type = COMP_CODE_RLE then
    Except.ok ⟨COMP_CODE_RLE, nbit0, skp0⟩
  else if coder_type = COMP_CODE_NBIT then
    match DFKNTsize cn.nt with
    | some sz =>
        Except.ok ⟨COMP_CODE_NBIT,
          ⟨cn.nt, cn.sign_ext, cn.fill_one, cn.start_bit, cn.bit_len, sz⟩, skp0⟩
    | none => Except.error HErr.BadNumType
  else if coder_type = COMP_CODE_SKPHUFF then
    Except.ok ⟨COMP_CODE_SKPHUFF, nbit0, ⟨skp_size⟩⟩
  else Except.error HErr.BadCoder

/-- `HCIinit_model` (hcomp.c:226-247): STDIO is the only model variant;
anything else fails with `DFE_BADMODEL`. -/
def HCIinit_model (model_type : Nat) : Except HErr Nat :=
  if model_type = COMP_MODEL_STDIO then Except.ok COMP_MODEL_STDIO
  else Except.error HErr.BadModel

/-- The byte string `HCIwrite_header` (hcomp.c:270-361) assembles in
`local_ptbuf` and writes to the file: the 14-byte common header
(i16 `SPECIAL_COMP`, u16 header version, i32 uncompressed length,
u16 `comp_ref`, u16 model type, u16 coder type) followed by the
coder-specific trailer — for NBIT `i32 nt, u16 sign_ext, u16 fill_one,
i32 mask_off, i32 mask_len`; for SKPHUFF the u32 skip size and a second
u32 ("# of bytes compressed", not used currently) that this writer also
fills with the skip size. -/
def HCIwrite_header_bytes (info : compinfo_t) : List Nat :=
  u16BE SPECIAL_COMP ++ u16BE COMP_HEADER_VERSION ++ int32BE info.length ++
  u16BE (info.comp_ref % 65536) ++ u16BE (info.model_type % 65536) ++
  u16BE (info.cinfo.coder_type % 65536) ++
  (if info.cinfo.coder_type = COMP_CODE_NBIT then
    int32BE info.cinfo.nbit.nt ++
    u16BE (u16ofInt info.cinfo.nbit.sign_ext) ++
    u16BE (u16ofInt info.cinfo.nbit.fill_one) ++
    int32BE info.cinfo.nbit.mask_off ++
    int32BE info.cinfo.nbit.mask_len
  else if info.cinfo.coder_type = COMP_CODE_SKPHUFF then
    u32BE (u32ofInt info.cinfo.skphuff.skip_size) ++
    u32BE (u32ofInt info.cinfo.skphuff.skip_size)
  else [])

/-- What `HCIread_header` (hcomp.c:384-481) recovers from the descriptor:
the header version, `info->length`, `info->comp_ref`, the model and coder
variant codes, and the coder parameters it stores into `c_info` (the NBIT
tuple, or the SKPHUFF skip size). -/
structure ParsedHeader where
  version : Nat
  length : Int
  comp_ref : Nat
  model_code : Nat
  coder_code : Nat
  nbit : Option comp_info_nbit
  skp_size : Option Int
  deriving DecidableEq, Repr

/-- `HCIread_header` (hcomp.c:384-481) as a parser over the descriptor
bytes: it seeks to descriptor offset + 2 (skipping the special code) and
reads the 12 remaining common-header bytes, then for NBIT reads 16 further
bytes (`i32 nt, u16 sign_ext, u16 fill_one, i32 start_bit, i32 bit_len`)
and for SKPHUFF 8 further bytes (u32 skip size, then a u32 that is decoded
and ignored).  A short read fails (`DFE_READERROR`, here `none`).  The u16
flags and the u32 skip size are stored through a cast to `intn`. -/
def HCIread_header (bytes : List Nat) : Option ParsedHeader :=
  match bytes with
  | _ :: _ :: v1 :: v0 :: l3 :: l2 :: l1 :: l0 :: r1 :: r0 :: m1 :: m0 :: c1 :: c0 :: rest =>
    let version := dec16 v1 v0
    let len := dec32i l3 l2 l1 l0
    let cref := dec16 r1 r0
    let mcode := dec16 m1 m0
    let ccode := dec16 c1 c0
    if ccode = COMP_CODE_NBIT then
      match rest with
      | n3 :: n2 :: n1 :: n0 :: s1 :: s0 :: f1 :: f0 ::
        o3 :: o2 :: o1 :: o0 :: b3 :: b2 :: b1 :: b0 :: _ =>
        some ⟨version, len, cref, mcode, ccode,
          some ⟨dec32i n3 n2 n1 n0, (dec16 s1 s0 : Int), (dec16 f1 f0 : Int),
                dec32i o3 o2 o1 o0, dec32i b3 b2 b1 b0⟩, none⟩
      | _ => none
    else if ccode = COMP_CODE_SKPHUFF then
      match rest with
      | k3 :: k2 :: k1 :: k0 :: _ :: _ :: _ :: _ :: _ =>
        some ⟨version, len, cref, mcode, ccode, none,
          some (i32ofU32 (dec32u k3 k2 k1 k0))⟩
      | _ => none
    else
      some ⟨version, len, cref, mcode, ccode, none, none⟩
  | _ => none

/-! ## Tag macros (hfile.h) -/

/-- `DFTAG_NULL`. -/
def DFTAG_NULL : Nat := 0

/-- Modelled from the spec: `SPECIALTAG` of hfile.h (not among the covered
sources).  Spec 3 sets out that the high bit of the 16-bit tag is the
`SPECIAL` mask distinguishing special from regular tags. -/
def SPECIALTAG (t : Nat) : Bool :=
  t.testBit 15

/-- Modelled from the spec: `MKSPECIALTAG` of hfile.h sets the `SPECIAL`
bit of a tag. -/
def MKSPECIALTAG (t : Nat) : Nat :=
  t ||| 32768

/-! ## HCcreate (hcomp.c:506-707) -/

/-- A data descriptor `dd_t`: tag, ref, file offset, length. -/
structure dd_t where
  tag : Nat
  ref : Nat
  offset : Int
  dlength : Int
  deriving DecidableEq, Repr

/-- The collaborators `HCcreate` consults, in call order: the validity of
the file record (`BADFREC`), the file's write permission
(`file_rec->access & DFACC_WRITE`), the access-record pool
(`HIget_access_slot`), the DD lookup for the supplied tag/ref
(`HIlookup_dd`), the free-DD search / new DD block (`HIlookup_dd` on
`DFTAG_NULL` or `HInew_dd_block`), the allocator (`HDmalloc`), the header
write path (`HPgetdiskblock`/`HPwrite`/`HIupdate_dd`/`HIadd_hash_dd`), the
model layer's `stwrite`, and the migration of an existing regular element
(`Hgetelement`/`HCPwrite`/`HCPseek`/`Hdeldd`/`HIdel_hash_dd`).  These
routines are in hfile.c / mstdio.c, not among the covered sources, so their
outcomes are inputs of the embedding. -/
structure HCcreateEnv where
  fileValid : Bool
  writable : Bool
  slotFree : Bool
  existing : Option dd_t
  freeDD : Bool
  mallocOk : Bool
  headerOk : Bool
  stwriteOk : Bool
  migrateOk : Bool
  deriving DecidableEq, Repr

/-- The observable outcome of `HCcreate`: the error it fails with (`none`
means an AID is returned), whether the compressed-element descriptor was
written into the file (`HCIwrite_header` reached and succeeded — i.e. a new
compressed element exists), the discarded results of `HCIinit_model` and
`HCIinit_coder`, and the initial `info->length`. -/
structure CreateResult where
  err : Option HErr
  headerWritten : Bool
  modelInit : Option HErr
  coderInit : Option HErr
  infoLength : Int
  deriving DecidableEq, Repr

/-- The error of an `Except`, if any. -/
def errOf {α : Type} : Except HErr α → Option HErr
  | Except.error e => some e
  | Except.ok _ => none

/-- `HCcreate` (hcomp.c:506-707), from the slot search onward: free-DD
lookup (`DFE_NOFREEDD` when the DD chain cannot grow), allocation of the
`compinfo_t` (`DFE_NOSPACE`), the initial length (`data_dd->length` when
compressing an existing regular element, else `COMP_START_BLOCK`), the
calls to `HCIinit_model` and `HCIinit_coder` — whose return values the C
code discards (hcomp.c:606,610) — the header write (`DFE_WRITEERROR`), the
model layer's `stwrite` (`DFE_MODEL`), and the migration of existing data. -/
def HCcreate_body (env : HCcreateEnv) (dataDD : Option dd_t)
    (model_type coder_type : Nat) (cn : comp_info_nbit) (skp_size : Int) :
    CreateResult :=
  if env.freeDD = false then ⟨some HErr.NoFreeDD, false, none, none, 0⟩
  else if env.mallocOk = false then ⟨some HErr.NoSpace, false, none, none, 0⟩
  else
    let len0 : Int := match dataDD with
      | some d => d.dlength
      | none => COMP_START_BLOCK
    let mres := errOf (HCIinit_model model_type)
    let cres := errOf (HCIinit_coder coder_type cn skp_size)
    if env.headerOk = false then ⟨some HErr.WriteFail, false, mres, cres, len0⟩
    else if env.stwriteOk = false then ⟨some HErr.Model, true, mres, cres, len0⟩
    else
      match dataDD with
      | some _ =>
        if env.migrateOk = false then ⟨some HErr.Model, true, mres, cres, len0⟩
        else ⟨none, true, mres, cres, len0⟩
      | none => ⟨none, true, mres, cres, len0⟩

/-- `HCcreate` (hcomp.c:506-707).  Entry validation in source order: an
invalid file record, an already-special tag, or a tag whose special form is
`DFTAG_NULL` fail with `DFE_ARGS`; a file without write access fails with
`DFE_DENIED`; an exhausted access-record pool fails with `DFE_TOOMANY`; an
existing element at the tag/ref that is itself special fails with
`DFE_CANTMOD`.  Otherwise the body runs with the existing regular element,
if any, remembered for migration. -/
def HCcreate (env : HCcreateEnv) (tag : Nat)
    (model_type coder_type : Nat) (cn : comp_info_nbit) (skp_size : Int) :
    CreateResult :=
  if env.fileValid = false ∨ SPECIALTAG tag = true ∨ MKSPECIALTAG tag = DFTAG_NULL then
    ⟨some HErr.Args, false, none, none, 0⟩
  else if env.writable = false then ⟨some HErr.Denied, false, none, none, 0⟩
  else if env.slotFree = false then ⟨some HErr.TooMany, false, none, none, 0⟩
  else
    match env.existing with
    | some d =>
      if SPECIALTAG d.tag = true then ⟨some HErr.CannotModify, false, none, none, 0⟩
      else HCcreate_body env (some d) model_type coder_type cn skp_size
    | none => HCcreate_body env none model_type coder_type cn skp_size

/-! ## Reference counting of the compressed special_info (hcomp.c, hfile.c)

`HCIstaccess` (hcomp.c:726-775) allocates the `compinfo_t` and sets
`info->attached = 1`; `HCPcloseAID` (hcomp.c:1116-1132) decrements
`info->attached` and frees the record exactly when the count reaches zero.
The sharing of one `special_info` between several access records on the same
tag/ref is performed by the H layer (hfile.c, not among the covered
sources); it is modelled from the spec (5: "reference-counted; shared across
multiple access records ...; freed only when `attached` drops to zero"). -/

/-- Attach/detach events on one compressed element's `special_info`. -/
inductive SIEvent where
  | attach
  | endacc
  deriving DecidableEq, Repr, BEq

/-- One step of the `special_info` life cycle.  The state is `none` when no
record is allocated and `some n` when a record with `attached = n` lives.
An attach on `none` is `HCIstaccess`: fresh record, `attached = 1`.  An
attach on `some n` is the spec-modelled sharing by the H layer: the same
record, `attached` incremented.  `endacc` on `some n` is `HCPcloseAID`:
`--(info->attached)`, and the record is freed when the result is zero.
`endacc` with no live record leaves nothing (callers never do this). -/
def siStep : Option Int → SIEvent → Option Int
  | none, SIEvent.attach => some 1
  | some n, SIEvent.attach => some (n + 1)
  | none, SIEvent.endacc => none
  | some n, SIEvent.endacc => if n - 1 = 0 then none else some (n - 1)

/-- Run a trace of attach/endaccess events from the unallocated state. -/
def runTrace (t : List SIEvent) : Option Int :=
  t.foldl siStep none

/-! ## HDmemfill (hdfalloc.c:73-106) -/

/-- The doubling loop of `HDmemfill`: `citems` items (`csize` bytes) are
already in place and `curr` is the write cursor.  While at least `citems`
items remain, `memcpy(curr_dest, dest, copy_size)` doubles the filled
region; afterwards, any remaining items are copied in one final
`memcpy(curr_dest, dest, items_left * item_size)`.  (`citems` starts at 1
and only doubles, so the `citems = 0` guard, needed for termination, is
never taken.) -/
def memfillLoop (isz : Nat) (citems ileft csize curr : Nat) (buf : List Nat) :
    List Nat :=
  if citems = 0 then buf
  else if citems ≤ ileft then
    memfillLoop isz (citems * 2) (ileft - citems) (csize * 2) (curr + csize)
      (writeAt buf curr (buf.take csize))
  else if 0 < ileft then
    writeAt buf curr (buf.take (ileft * isz))
  else buf
  termination_by ileft
  decreasing_by omega

/-- `HDmemfill` (hdfalloc.c:73-106): when both `num_items` and `item_size`
are positive, copy the pattern once (`HDmemcpy(dest, src, item_size)`) and
run the doubling loop; otherwise the destination is untouched.  The C
routine returns the `dest` pointer; here the (possibly updated) destination
buffer is returned. -/
def HDmemfill (dest src : List Nat) (item_size num_items : Nat) : List Nat :=
  if 0 < num_items ∧ 0 < item_size then
    memfillLoop item_size 1 (num_items - 1) item_size item_size
      (writeAt dest 0 (src.take item_size))
  else dest

/-- The naive one-item-at-a-time fill the claim compares against:
`num_items` consecutive copies of the pattern. -/
def naiveFill (pat : List Nat) : Nat → List Nat
  | 0 => []
  | n + 1 => pat ++ naiveFill pat n

/-! ## Theorems -/

/-- The position `HCPseek` resolves to: the offset itself from `DF_START`,
`posn + offset` from `DF_CURRENT`, `length + offset` from `DF_END`. -/
def seekResolved (s : CompAccess) (off : Int) : Origin → Int
  | Origin.start => off
  | Origin.current => s.posn + off
  | Origin.fromEnd => s.length + off

/-- Claim C1: for every access record on a compressed element with logical
length `L` and position `p`, `HCPread` with `len = 0` returns exactly
`L - p` bytes and advances the position to `L`; with `len < 0`, or with
`len > 0` and `p + len > L`, it fails with `Range` and leaves the position
unchanged; on success with `len > 0` it returns `len` and advances the
position by `len`. -/
theorem HCPread_spec (s : CompAccess) (len : Int) (mOk : Bool) :
    (len = 0 → mOk = true →
      HCPread s len mOk = (Except.ok (s.length - s.posn), { s with posn := s.length }))
    ∧ (len < 0 → HCPread s len mOk = (Except.error HErr.Range, s))
    ∧ (0 < len → s.length < s.posn + len →
      HCPread s len mOk = (Except.error HErr.Range, s))
    ∧ (0 < len → s.posn + len ≤ s.length → mOk = true →
      HCPread s len mOk = (Except.ok len, { s with posn := s.posn + len })) := by
  refine ⟨?_, ?_, ?_, ?_⟩
  · intro h0 hm
    subst h0
    simp only [HCPread, hm]
    norm_num
  · intro h
    simp [HCPread, if_pos h]
  · intro h1 h2
    simp [HCPread, show ¬ len < 0 by omega, show len ≠ 0 by omega,
      show s.length < s.posn + len from h2]
  · intro h1 h2 hm
    simp [HCPread, hm, show ¬ len < 0 by omega, show ¬ len = 0 by omega,
      show ¬ s.length < s.posn + len by omega]

/-- Witness for C1 at concrete inputs: a length-10 element at position 2. -/
theorem HCPread_spec_witness :
    HCPread ⟨2, 10, 0, []⟩ 0 true = (Except.ok 8, ⟨10, 10, 0, []⟩)
    ∧ HCPread ⟨2, 10, 0, []⟩ (-1) true = (Except.error HErr.Range, ⟨2, 10, 0, []⟩)
    ∧ HCPread ⟨2, 10, 0, []⟩ 9 true = (Except.error HErr.Range, ⟨2, 10, 0, []⟩)
    ∧ HCPread ⟨2, 10, 0, []⟩ 5 true = (Except.ok 5, ⟨7, 10, 0, []⟩) :=
  ⟨(HCPread_spec ⟨2, 10, 0, []⟩ 0 true).1 rfl rfl,
   (HCPread_spec ⟨2, 10, 0, []⟩ (-1) true).2.1 (by decide),
   (HCPread_spec ⟨2, 10, 0, []⟩ 9 true).2.2.1 (by decide) (by decide),
   (HCPread_spec ⟨2, 10, 0, []⟩ 5 true).2.2.2 (by decide) (by decide) rfl⟩

/-- Claim C2: a successful `HCPwrite` of `n ≥ 0` bytes advances the
position by `n`; when the new position exceeds the stored uncompressed
length, the length becomes the new position and the 4-byte big-endian
length field at descriptor offset + 4 is rewritten in the file image; a
negative `n` fails with `Range` and leaves position, length and the file
image unchanged. -/
theorem HCPwrite_spec (s : CompAccess) (len : Int) (mOk : Bool) :
    (len < 0 → HCPwrite s len mOk = (Except.error HErr.Range, s))
    ∧ (0 ≤ len → mOk = true → s.length < s.posn + len →
      HCPwrite s len mOk = (Except.ok len,
        ⟨s.posn + len, s.posn + len, s.descOffset,
         writeAt s.disk (s.descOffset + 4) (int32BE (s.posn + len))⟩))
    ∧ (0 ≤ len → mOk = true → s.posn + len ≤ s.length →
      HCPwrite s len mOk = (Except.ok len, { s with posn := s.posn + len })) := by
  refine ⟨?_, ?_, ?_⟩
  · intro h
    simp [HCPwrite, if_pos h]
  · intro h1 hm h2
    simp [HCPwrite, hm, show ¬ len < 0 by omega,
      show s.length < s.posn + len from h2]
  · intro h1 hm h2
    simp [HCPwrite, hm, show ¬ len < 0 by omega,
      show ¬ s.length < s.posn + len by omega]

/-- Witness for C2 at concrete inputs: a length-10 element, one in-bounds
write, one extending write that rewrites bytes 4..8 of the descriptor, and
one negative write. -/
theorem HCPwrite_spec_witness :
    HCPwrite ⟨2, 10, 0, []⟩ 3 true = (Except.ok 3, ⟨5, 10, 0, []⟩)
    ∧ HCPwrite ⟨8, 10, 0, List.replicate 12 0⟩ 5 true =
      (Except.ok 5, ⟨13, 13, 0, [0, 0, 0, 0, 0, 0, 0, 13, 0, 0, 0, 0]⟩)
    ∧ HCPwrite ⟨2, 10, 0, []⟩ (-1) true = (Except.error HErr.Range, ⟨2, 10, 0, []⟩) := by
  refine ⟨?_, ?_, ?_⟩
  · exact (HCPwrite_spec ⟨2, 10, 0, []⟩ 3 true).2.2 (by decide) rfl (by decide)
  · have h := (HCPwrite_spec ⟨8, 10, 0, List.replicate 12 0⟩ 5 true).2.1
      (by decide) rfl (by decide)
    rw [h]
    rfl
  · exact (HCPwrite_spec ⟨2, 10, 0, []⟩ (-1) true).1 (by decide)

/-- Claim C4: `HCPseek` resolves the target to `offset` from `start`,
`posn + offset` from `current`, `length + offset` from `end`; a negative
resolved position fails with `Range` and leaves the position unchanged;
otherwise the position becomes the resolved value — in particular
`seek(0, CURRENT)` leaves the state unchanged. -/
theorem HCPseek_spec (s : CompAccess) (off : Int) (origin : Origin) (mOk : Bool) :
    (seekResolved s off origin < 0 →
      HCPseek s off origin mOk = (Except.error HErr.Range, s))
    ∧ (0 ≤ seekResolved s off origin → mOk = true →
      HCPseek s off origin mOk = (Except.ok (), { s with posn := seekResolved s off origin }))
    ∧ (0 ≤ s.posn → HCPseek s 0 Origin.current true = (Except.ok (), s)) := by
  refine ⟨?_, ?_, ?_⟩
  · intro h
    cases origin <;>
      simp_all [HCPseek, seekResolved, Int.add_comm off]
  · intro h hm
    cases origin <;>
      simp_all [HCPseek, seekResolved, Int.add_comm off, Int.not_lt]
  · obtain ⟨p, L, d, dk⟩ := s
    intro hp
    simp only at hp
    simp [HCPseek, hp, show ¬ (0 + p < 0) by omega]

/-- Witness for C4 at concrete inputs: a length-10 element at position 3. -/
theorem HCPseek_spec_witness :
    HCPseek ⟨3, 10, 0, []⟩ (-5) Origin.start true = (Except.error HErr.Range, ⟨3, 10, 0, []⟩)
    ∧ HCPseek ⟨3, 10, 0, []⟩ 2 Origin.fromEnd true = (Except.ok (), ⟨12, 10, 0, []⟩)
    ∧ HCPseek ⟨3, 10, 0, []⟩ 0 Origin.current true = (Except.ok (), ⟨3, 10, 0, []⟩) :=
  ⟨(HCPseek_spec ⟨3, 10, 0, []⟩ (-5) Origin.start true).1 (by decide),
   (HCPseek_spec ⟨3, 10, 0, []⟩ 2 Origin.fromEnd true).2.1 (by decide) rfl,
   (HCPseek_spec ⟨3, 10, 0, []⟩ 0 Origin.current true).2.2 (by decide)⟩

/-- Claim C3, counterexample: at a position past the end of the element
(position 5 on a length-3 element, reachable because `HCPseek` puts no
upper bound on the position), a write of 0 bytes succeeds but changes the
stored length from 3 to 5 and rewrites the descriptor's length field bytes
`[4, 8)` of the previously all-zero file image, so a 0-byte write is not
always free of effect on the length and the descriptor. -/
theorem HCPwrite_zero_counterexample :
    HCPwrite ⟨5, 3, 0, List.replicate 12 0⟩ 0 true
      = (Except.ok 0, ⟨5, 5, 0, [0, 0, 0, 0, 0, 0, 0, 5, 0, 0, 0, 0]⟩) :=
  rfl

/-- Claim C3, amended: a 0-byte `HCPwrite` at a position at most the stored
length changes nothing; at a position beyond the stored length (reachable
only by seeking past the end) it sets the length to the position and
rewrites the 4-byte big-endian length field at descriptor offset + 4. -/
theorem HCPwrite_zero_amended (p L : Int) (d : Nat) (dk : List Nat) :
    (p ≤ L → HCPwrite ⟨p, L, d, dk⟩ 0 true = (Except.ok 0, ⟨p, L, d, dk⟩))
    ∧ (L < p → HCPwrite ⟨p, L, d, dk⟩ 0 true =
        (Except.ok 0, ⟨p, p, d, writeAt dk (d + 4) (int32BE p)⟩)) := by
  refine ⟨?_, ?_⟩
  · intro h
    simp [HCPwrite]
    exact fun h2 => absurd h2 (by omega)
  · intro h
    simp [HCPwrite, show L < p + 0 by omega]
    exact fun h2 => absurd h2 (by omega)

/-- Witness for the amended C3 at concrete inputs. -/
theorem HCPwrite_zero_amended_witness :
    HCPwrite ⟨2, 10, 1, []⟩ 0 true = (Except.ok 0, ⟨2, 10, 1, []⟩)
    ∧ HCPwrite ⟨7, 3, 0, List.replicate 12 9⟩ 0 true =
      (Except.ok 0, ⟨7, 7, 0, [9, 9, 9, 9, 0, 0, 0, 7, 9, 9, 9, 9]⟩) := by
  refine ⟨?_, ?_⟩
  · exact (HCPwrite_zero_amended 2 10 1 []).1 (by decide)
  · have h := (HCPwrite_zero_amended 7 3 0 (List.replicate 12 9)).2 (by decide)
    rw [h]
    rfl

/-- The special form of a tag is never `DFTAG_NULL`: setting the special
bit yields a nonzero tag. -/
theorem MKSPECIALTAG_ne_null (t : Nat) : MKSPECIALTAG t ≠ DFTAG_NULL := by
  intro h
  have h15 := congrArg (fun n => Nat.testBit n 15) h
  simp [MKSPECIALTAG, DFTAG_NULL] at h15
  exact absurd h15.2 (by decide)

/-- Claim C5: `HCcreate` fails with `Args` when the supplied tag already
carries the SPECIAL bit, with `Denied` when the file is not open for
writing, and with `CannotModify` when an element already exists at the
tag/ref and is itself special; in each case no compressed element is
created (the descriptor is never written). -/
theorem HCcreate_validation (env : HCcreateEnv) (tag : Nat)
    (mt ct : Nat) (cn : comp_info_nbit) (skp : Int) :
    (SPECIALTAG tag = true →
      HCcreate env tag mt ct cn skp = ⟨some HErr.Args, false, none, none, 0⟩)
    ∧ (env.fileValid = true → SPECIALTAG tag = false → env.writable = false →
      HCcreate env tag mt ct cn skp = ⟨some HErr.Denied, false, none, none, 0⟩)
    ∧ (∀ d : dd_t, env.fileValid = true → SPECIALTAG tag = false →
      env.writable = true → env.slotFree = true →
      env.existing = some d → SPECIALTAG d.tag = true →
      HCcreate env tag mt ct cn skp = ⟨some HErr.CannotModify, false, none, none, 0⟩) := by
  refine ⟨?_, ?_, ?_⟩
  · intro hst
    simp [HCcreate, hst]
  · intro hfv hst hw
    simp [HCcreate, hfv, hst, hw, MKSPECIALTAG_ne_null tag]
  · intro d hfv hst hw hs he hds
    simp [HCcreate, hfv, hst, hw, hs, he, hds, MKSPECIALTAG_ne_null tag]

/-- Witness for C5 at concrete inputs: tag 40000 has the SPECIAL bit set;
a read-only file; an existing special element with tag 49152. -/
theorem HCcreate_validation_witness :
    HCcreate ⟨true, true, true, none, true, true, true, true, true⟩ 40000
        COMP_MODEL_STDIO COMP_CODE_RLE ⟨0, 0, 0, 0, 0⟩ 0
      = ⟨some HErr.Args, false, none, none, 0⟩
    ∧ HCcreate ⟨true, false, true, none, true, true, true, true, true⟩ 100
        COMP_MODEL_STDIO COMP_CODE_RLE ⟨0, 0, 0, 0, 0⟩ 0
      = ⟨some HErr.Denied, false, none, none, 0⟩
    ∧ HCcreate ⟨true, true, true, some ⟨49152, 1, 40, 8⟩, true, true, true, true, true⟩ 100
        COMP_MODEL_STDIO COMP_CODE_RLE ⟨0, 0, 0, 0, 0⟩ 0
      = ⟨some HErr.CannotModify, false, none, none, 0⟩ :=
  ⟨(HCcreate_validation ⟨true, true, true, none, true, true, true, true, true⟩ 40000
      COMP_MODEL_STDIO COMP_CODE_RLE ⟨0, 0, 0, 0, 0⟩ 0).1 (by decide),
   (HCcreate_validation ⟨true, false, true, none, true, true, true, true, true⟩ 100
      COMP_MODEL_STDIO COMP_CODE_RLE ⟨0, 0, 0, 0, 0⟩ 0).2.1 rfl (by decide) rfl,
   (HCcreate_validation ⟨true, true, true, some ⟨49152, 1, 40, 8⟩, true, true, true, true, true⟩ 100
      COMP_MODEL_STDIO COMP_CODE_RLE ⟨0, 0, 0, 0, 0⟩ 0).2.2 ⟨49152, 1, 40, 8⟩
      rfl (by decide) rfl rfl rfl (by decide)⟩

/-- Claim C6: `HCIinit_coder` does fail with `BadCoder` on a variant
outside NONE/RLE/NBIT/SKPHUFF and with `BadNumType` on an NBIT number type
the number-type table cannot resolve — but `HCcreate` discards the result
of `HCIinit_coder` (hcomp.c:610), so on an otherwise healthy create the
call does not fail with `BadCoder`: it writes the descriptor and reports
success with the coder state uninitialized. -/
theorem HCcreate_swallows_coder_failure (ct : Nat) (cn : comp_info_nbit) (skp : Int) :
    (ct ≠ COMP_CODE_NONE → ct ≠ COMP_CODE_RLE → ct ≠ COMP_CODE_NBIT →
      ct ≠ COMP_CODE_SKPHUFF →
      HCIinit_coder ct cn skp = Except.error HErr.BadCoder)
    ∧ (DFKNTsize cn.nt = none →
      HCIinit_coder COMP_CODE_NBIT cn skp = Except.error HErr.BadNumType)
    ∧ (ct ≠ COMP_CODE_NONE → ct ≠ COMP_CODE_RLE → ct ≠ COMP_CODE_NBIT →
      ct ≠ COMP_CODE_SKPHUFF →
      HCcreate ⟨true, true, true, none, true, true, true, true, true⟩ 100
          COMP_MODEL_STDIO ct cn skp
        = ⟨none, true, none, some HErr.BadCoder, COMP_START_BLOCK⟩) := by
  refine ⟨?_, ?_, ?_⟩
  · intro h0 h1 h2 h3
    simp [HCIinit_coder, h0, h1, h2, h3]
  · intro hdk
    simp [HCIinit_coder, COMP_CODE_NBIT, COMP_CODE_NONE, COMP_CODE_RLE, hdk]
  · intro h0 h1 h2 h3
    simp [HCcreate, HCcreate_body, HCIinit_model, HCIinit_coder, errOf,
      h0, h1, h2, h3, show SPECIALTAG 100 = false by decide,
      MKSPECIALTAG_ne_null 100]

/-- Witness for C6 at concrete inputs: coder variant 7 does not exist, and
number type 999 is not in the number-type table. -/
theorem HCcreate_swallows_coder_failure_witness :
    HCIinit_coder 7 ⟨999, 0, 0, 0, 0⟩ 0 = Except.error HErr.BadCoder
    ∧ HCIinit_coder COMP_CODE_NBIT ⟨999, 0, 0, 0, 0⟩ 0 = Except.error HErr.BadNumType
    ∧ HCcreate ⟨true, true, true, none, true, true, true, true, true⟩ 100
        COMP_MODEL_STDIO 7 ⟨999, 0, 0, 0, 0⟩ 0
      = ⟨none, true, none, some HErr.BadCoder, COMP_START_BLOCK⟩ :=
  ⟨(HCcreate_swallows_coder_failure 7 ⟨999, 0, 0, 0, 0⟩ 0).1
      (by decide) (by decide) (by decide) (by decide),
   (HCcreate_swallows_coder_failure 7 ⟨999, 0, 0, 0, 0⟩ 0).2.1 (by decide),
   (HCcreate_swallows_coder_failure 7 ⟨999, 0, 0, 0, 0⟩ 0).2.2
      (by decide) (by decide) (by decide) (by decide)⟩

/-- Claim C9: over any event trace in which endaccesses never outnumber
attaches (every prefix has at least as many attaches), the `special_info`
record's `attached` count equals the number of access records still open
(attaches minus endaccesses), and the record is freed — the state returns
to `none` — exactly when that count drops to zero. -/
theorem special_info_refcount (t : List SIEvent)
    (hvalid : ∀ k, k ≤ t.length →
      (t.take k).count SIEvent.endacc ≤ (t.take k).count SIEvent.attach) :
    runTrace t =
      if t.count SIEvent.attach = t.count SIEvent.endacc then none
      else some ((t.count SIEvent.attach : Int) - (t.count SIEvent.endacc : Int)) := by
  induction t using List.reverseRecOn with
  | nil => simp [runTrace]
  | append_singleton t e ih =>
    have hvt : ∀ k, k ≤ t.length →
        (t.take k).count SIEvent.endacc ≤ (t.take k).count SIEvent.attach := by
      intro k hk
      have h := hvalid k (by simp; omega)
      rwa [List.take_append_of_le_length hk] at h
    have hE : t.count SIEvent.endacc ≤ t.count SIEvent.attach := by
      have h := hvt t.length le_rfl
      rwa [List.take_length] at h
    have hrun : runTrace (t ++ [e]) = siStep (runTrace t) e := by
      simp [runTrace]
    rw [hrun, ih hvt]
    cases e with
    | attach =>
      rw [show (t ++ [SIEvent.attach]).count SIEvent.attach
            = t.count SIEvent.attach + 1 by simp [List.count_append]; decide,
          show (t ++ [SIEvent.attach]).count SIEvent.endacc
            = t.count SIEvent.endacc by simp [List.count_append]; decide]
      by_cases hAE : t.count SIEvent.attach = t.count SIEvent.endacc
      · rw [if_pos hAE, if_neg (by omega)]
        simp only [siStep, Option.some.injEq]
        omega
      · rw [if_neg hAE, if_neg (by omega)]
        simp only [siStep, Option.some.injEq]
        omega
    | endacc =>
      have hfull := hvalid (t.length + 1) (by simp)
      rw [List.take_of_length_le (by simp)] at hfull
      simp only [List.count_append,
        show List.count SIEvent.attach [SIEvent.endacc] = 0 by decide,
        show List.count SIEvent.endacc [SIEvent.endacc] = 1 by decide] at hfull
      rw [show (t ++ [SIEvent.endacc]).count SIEvent.attach
            = t.count SIEvent.attach by simp [List.count_append]; decide,
          show (t ++ [SIEvent.endacc]).count SIEvent.endacc
            = t.count SIEvent.endacc + 1 by simp [List.count_append]; decide,
          if_neg (by omega)]
      simp only [siStep]
      split_ifs <;>
        first
        | rfl
        | (exfalso; omega)
        | (simp only [Option.some.injEq]; omega)

/-- Witness for C9 at a concrete trace: two access records are opened on
the same element and closed again; the record is freed exactly at the end. -/
theorem special_info_refcount_witness :
    runTrace [SIEvent.attach, SIEvent.attach, SIEvent.endacc, SIEvent.endacc] = none := by
  have h := special_info_refcount
    [SIEvent.attach, SIEvent.attach, SIEvent.endacc, SIEvent.endacc]
    (by intro k hk; simp at hk; interval_cases k <;> decide)
  rw [h]
  rfl

/-- Decoding the two big-endian bytes of a 16-bit value recovers it. -/
theorem dec16_enc (n : Nat) (h : n < 65536) :
    dec16 (n / 256 % 256) (n % 256) = n := by
  simp only [dec16]
  omega

/-- Decoding the two big-endian bytes of a `(uint16)` cast of a signed
value in `[0, 2^16)` recovers it (as the C reader's `(intn)` cast does). -/
theorem dec16_encInt (se : Int) (h1 : 0 ≤ se) (h2 : se < 65536) :
    (dec16 (u16ofInt se / 256 % 256) (u16ofInt se % 256) : Int) = se := by
  have hk : (u16ofInt se : Int) = se := by
    simp only [u16ofInt]
    rw [Int.emod_eq_of_lt h1 (by omega)]
    exact Int.toNat_of_nonneg h1
  simp only [dec16]
  omega

/-- `INT32DECODE` of the four `INT32ENCODE` bytes of an `int32` value
recovers it. -/
theorem dec32i_enc (i : Int) (h1 : -2147483648 ≤ i) (h2 : i < 2147483648) :
    dec32i (u32ofInt i / 16777216 % 256) (u32ofInt i / 65536 % 256)
      (u32ofInt i / 256 % 256) (u32ofInt i % 256) = i := by
  have hk : (u32ofInt i : Int) = i % 4294967296 := by
    simp only [u32ofInt]
    exact Int.toNat_of_nonneg (Int.emod_nonneg i (by norm_num))
  simp only [dec32i, dec32u, i32ofU32]
  split_ifs with h <;> omega

/-- Claim C7: for every NBIT parameter tuple, writing the header and
parsing it back recovers exactly the same tuple (the claim's `start_bit`
and `bit_len` live in the coder state's `mask_off` and `mask_len`), and
the tuple is encoded big-endian as `i32 nt, u16 sign_ext, u16 fill_one,
i32 start_bit, i32 bit_len` right after the 14-byte common header. -/
theorem nbit_header_roundtrip (info : compinfo_t)
    (hct : info.cinfo.coder_type = COMP_CODE_NBIT)
    (hl1 : -2147483648 ≤ info.length) (hl2 : info.length < 2147483648)
    (href : info.comp_ref < 65536) (hmt : info.model_type < 65536)
    (hnt1 : -2147483648 ≤ info.cinfo.nbit.nt) (hnt2 : info.cinfo.nbit.nt < 2147483648)
    (hse1 : 0 ≤ info.cinfo.nbit.sign_ext) (hse2 : info.cinfo.nbit.sign_ext < 65536)
    (hfo1 : 0 ≤ info.cinfo.nbit.fill_one) (hfo2 : info.cinfo.nbit.fill_one < 65536)
    (hmo1 : -2147483648 ≤ info.cinfo.nbit.mask_off) (hmo2 : info.cinfo.nbit.mask_off < 2147483648)
    (hml1 : -2147483648 ≤ info.cinfo.nbit.mask_len) (hml2 : info.cinfo.nbit.mask_len < 2147483648) :
    HCIread_header (HCIwrite_header_bytes info)
      = some ⟨COMP_HEADER_VERSION, info.length, info.comp_ref, info.model_type,
              COMP_CODE_NBIT,
              some ⟨info.cinfo.nbit.nt, info.cinfo.nbit.sign_ext,
                    info.cinfo.nbit.fill_one, info.cinfo.nbit.mask_off,
                    info.cinfo.nbit.mask_len⟩, none⟩
    ∧ (HCIwrite_header_bytes info).drop COMP_HEADER_LENGTH
        = int32BE info.cinfo.nbit.nt
          ++ u16BE (u16ofInt info.cinfo.nbit.sign_ext)
          ++ u16BE (u16ofInt info.cinfo.nbit.fill_one)
          ++ int32BE info.cinfo.nbit.mask_off
          ++ int32BE info.cinfo.nbit.mask_len := by
  obtain ⟨len, cref, mt, ⟨ct, ⟨nt, se, fo, mo, ml, nsz⟩, ⟨skp⟩⟩⟩ := info
  simp only at hct hl1 hl2 href hmt hnt1 hnt2 hse1 hse2 hfo1 hfo2 hmo1 hmo2 hml1 hml2
  subst hct
  constructor
  · simp only [HCIwrite_header_bytes, COMP_CODE_NBIT, COMP_CODE_SKPHUFF,
      COMP_HEADER_VERSION, SPECIAL_COMP, u16BE, int32BE, u32BE,
      List.cons_append, List.nil_append]
    norm_num
    simp only [HCIread_header]
    norm_num [COMP_CODE_NBIT, COMP_CODE_SKPHUFF,
      show dec16 0 2 = 2 by norm_num [dec16],
      show dec16 0 0 = 0 by norm_num [dec16],
      Nat.mod_eq_of_lt href, Nat.mod_eq_of_lt hmt,
      dec32i_enc len hl1 hl2, dec32i_enc nt hnt1 hnt2,
      dec32i_enc mo hmo1 hmo2, dec32i_enc ml hml1 hml2,
      dec16_enc cref href, dec16_enc mt hmt,
      dec16_encInt se hse1 hse2, dec16_encInt fo hfo1 hfo2]
  · rfl

/-- Witness for C7 at a concrete NBIT tuple: nt = 24 (INT32),
sign_ext = 1, fill_one = 0, start_bit = 15, bit_len = 8, on an element of
length 20 with backing ref 5. -/
theorem nbit_header_roundtrip_witness :
    HCIread_header (HCIwrite_header_bytes ⟨20, 5, 0, ⟨2, ⟨24, 1, 0, 15, 8, 4⟩, ⟨0⟩⟩⟩)
      = some ⟨0, 20, 5, 0, 2, some ⟨24, 1, 0, 15, 8⟩, none⟩
    ∧ (HCIwrite_header_bytes ⟨20, 5, 0, ⟨2, ⟨24, 1, 0, 15, 8, 4⟩, ⟨0⟩⟩⟩).drop 14
      = [0, 0, 0, 24, 0, 1, 0, 0, 0, 0, 0, 15, 0, 0, 0, 8] :=
  nbit_header_roundtrip ⟨20, 5, 0, ⟨2, ⟨24, 1, 0, 15, 8, 4⟩, ⟨0⟩⟩⟩ rfl
    (by decide) (by decide) (by decide) (by decide) (by decide) (by decide)
    (by decide) (by decide) (by decide) (by decide) (by decide) (by decide)
    (by decide) (by decide)

/-- Claim C8: the SKPHUFF trailer written after the 14-byte common header
is the skip size as a u32 followed by a second u32 (which this writer also
fills with the skip size); parsing the written header recovers the same
skip size, and the parse result is the same for every value of the second
(reserved) u32 — so a writer that puts zero there is read identically. -/
theorem skphuff_header_roundtrip (info : compinfo_t)
    (hct : info.cinfo.coder_type = COMP_CODE_SKPHUFF)
    (hl1 : -2147483648 ≤ info.length) (hl2 : info.length < 2147483648)
    (href : info.comp_ref < 65536) (hmt : info.model_type < 65536)
    (hsk1 : 0 ≤ info.cinfo.skphuff.skip_size)
    (hsk2 : info.cinfo.skphuff.skip_size < 2147483648) :
    (HCIwrite_header_bytes info).drop COMP_HEADER_LENGTH
      = u32BE (u32ofInt info.cinfo.skphuff.skip_size)
        ++ u32BE (u32ofInt info.cinfo.skphuff.skip_size)
    ∧ HCIread_header (HCIwrite_header_bytes info)
      = some ⟨COMP_HEADER_VERSION, info.length, info.comp_ref, info.model_type,
              COMP_CODE_SKPHUFF, none, some info.cinfo.skphuff.skip_size⟩
    ∧ (∀ r3 r2 r1 r0 : Nat,
      HCIread_header ((HCIwrite_header_bytes info).take 18 ++ [r3, r2, r1, r0])
        = some ⟨COMP_HEADER_VERSION, info.length, info.comp_ref, info.model_type,
                COMP_CODE_SKPHUFF, none, some info.cinfo.skphuff.skip_size⟩) := by
  obtain ⟨len, cref, mt, ⟨ct, ⟨nt, se, fo, mo, ml, nsz⟩, ⟨skp⟩⟩⟩ := info
  simp only at hct hl1 hl2 href hmt hsk1 hsk2
  subst hct
  have hskp := dec32i_enc skp (by omega) hsk2
  simp only [dec32i] at hskp
  refine ⟨rfl, ?_, ?_⟩
  · simp only [HCIwrite_header_bytes, COMP_CODE_NBIT, COMP_CODE_SKPHUFF,
      COMP_HEADER_VERSION, SPECIAL_COMP, u16BE, int32BE, u32BE,
      List.cons_append, List.nil_append]
    norm_num
    simp only [HCIread_header]
    norm_num [COMP_CODE_NBIT, COMP_CODE_SKPHUFF,
      show dec16 0 3 = 3 by norm_num [dec16],
      show dec16 0 0 = 0 by norm_num [dec16],
      Nat.mod_eq_of_lt href, Nat.mod_eq_of_lt hmt,
      dec32i_enc len hl1 hl2, dec16_enc cref href, dec16_enc mt hmt, hskp]
  · intro r3 r2 r1 r0
    simp only [HCIwrite_header_bytes, COMP_CODE_NBIT, COMP_CODE_SKPHUFF,
      COMP_HEADER_VERSION, SPECIAL_COMP, u16BE, int32BE, u32BE,
      List.cons_append, List.nil_append]
    norm_num
    simp only [HCIread_header]
    norm_num [COMP_CODE_NBIT, COMP_CODE_SKPHUFF,
      show dec16 0 3 = 3 by norm_num [dec16],
      show dec16 0 0 = 0 by norm_num [dec16],
      Nat.mod_eq_of_lt href, Nat.mod_eq_of_lt hmt,
      dec32i_enc len hl1 hl2, dec16_enc cref href, dec16_enc mt hmt, hskp]

/-- Witness for C8 at a concrete skip size of 4, reserved word 7. -/
theorem skphuff_header_roundtrip_witness :
    (HCIwrite_header_bytes ⟨100, 6, 0, ⟨3, ⟨0, 0, 0, 0, 0, 0⟩, ⟨4⟩⟩⟩).drop 14
      = [0, 0, 0, 4, 0, 0, 0, 4]
    ∧ HCIread_header (HCIwrite_header_bytes ⟨100, 6, 0, ⟨3, ⟨0, 0, 0, 0, 0, 0⟩, ⟨4⟩⟩⟩)
      = some ⟨0, 100, 6, 0, 3, none, some 4⟩
    ∧ HCIread_header
        ((HCIwrite_header_bytes ⟨100, 6, 0, ⟨3, ⟨0, 0, 0, 0, 0, 0⟩, ⟨4⟩⟩⟩).take 18
          ++ [0, 0, 0, 7])
      = some ⟨0, 100, 6, 0, 3, none, some 4⟩ := by
  have h := skphuff_header_roundtrip ⟨100, 6, 0, ⟨3, ⟨0, 0, 0, 0, 0, 0⟩, ⟨4⟩⟩⟩ rfl
    (by decide) (by decide) (by decide) (by decide) (by decide) (by decide)
  exact ⟨h.1, h.2.1, h.2.2 0 0 0 7⟩

/-- Length of the naive fill. -/
theorem naiveFill_length (pat : List Nat) (n : Nat) :
    (naiveFill pat n).length = n * pat.length := by
  induction n with
  | zero => simp [naiveFill]
  | succ k ih =>
    simp [naiveFill, ih]
    ring

/-- The naive fill splits over addition of the item counts. -/
theorem naiveFill_add (pat : List Nat) (a b : Nat) :
    naiveFill pat (a + b) = naiveFill pat a ++ naiveFill pat b := by
  induction a with
  | zero => simp [naiveFill]
  | succ k ih =>
    rw [show k + 1 + b = (k + b) + 1 by omega]
    simp [naiveFill, ih]

/-- Taking a whole number of items off the front of a naive fill yields the
smaller naive fill. -/
theorem naiveFill_take (pat : List Nat) (m k : Nat) (h : k ≤ m) :
    (naiveFill pat m).take (k * pat.length) = naiveFill pat k := by
  rw [show m = k + (m - k) by omega, naiveFill_add]
  exact List.take_left' (naiveFill_length pat k)

/-- The doubling `memcpy` of the loop: with the filled prefix `F` in place
and the cursor right behind it, copying the first `F.length` bytes to the
cursor doubles the prefix. -/
theorem writeAt_double (F D : List Nat) :
    writeAt (F ++ D) F.length ((F ++ D).take F.length)
      = F ++ (F ++ D.drop F.length) := by
  unfold writeAt
  rw [List.take_left]
  simp [List.drop_append]

/-- Invariant of `memfillLoop`: with `c` items filled in (`naiveFill pat c`
at the front of the buffer, cursor and copy size at `c * isz`) and
`ileft * isz` bytes of room left, the loop completes the fill to
`c + ileft` items and touches nothing beyond them. -/
theorem memfillLoop_eq (isz : Nat) (pat : List Nat) (hpat : pat.length = isz) :
    ∀ ileft c R, 0 < c → ileft * isz ≤ R.length → ∀ cs cr, cs = c * isz → cr = c * isz →
    memfillLoop isz c ileft cs cr (naiveFill pat c ++ R)
      = naiveFill pat (c + ileft) ++ R.drop (ileft * isz) := by
  intro ileft
  induction ileft using Nat.strong_induction_on with
  | _ ileft IH =>
    intro c R hc hlen cs cr hcs hcr
    subst hcs
    subst hcr
    rw [memfillLoop]
    rw [if_neg (by omega : ¬ c = 0)]
    by_cases hci : c ≤ ileft
    · rw [if_pos hci]
      have hFlen : (naiveFill pat c).length = c * isz := by
        rw [naiveFill_length, hpat]
      have hbuf : writeAt (naiveFill pat c ++ R) (c * isz)
            ((naiveFill pat c ++ R).take (c * isz))
          = naiveFill pat (c * 2) ++ R.drop (c * isz) := by
        rw [← hFlen, writeAt_double, hFlen,
          show c * 2 = c + c by ring, naiveFill_add, List.append_assoc]
      rw [hbuf]
      have hlen2 : (ileft - c) * isz ≤ (R.drop (c * isz)).length := by
        rw [Nat.sub_mul, List.length_drop]
        exact Nat.sub_le_sub_right hlen _
      have hrec := IH (ileft - c) (by omega) (c * 2) (R.drop (c * isz))
        (by omega) hlen2 (c * isz * 2) (c * isz + c * isz) (by ring) (by ring)
      rw [hrec, List.drop_drop,
        show c * 2 + (ileft - c) = c + ileft by omega,
        show c * isz + (ileft - c) * isz = ileft * isz by
          rw [← Nat.add_mul]
          congr 1
          omega]
    · rw [if_neg hci]
      by_cases hil : 0 < ileft
      · rw [if_pos hil]
        have hFlen : (naiveFill pat c).length = c * isz := by
          rw [naiveFill_length, hpat]
        have htake : (naiveFill pat c ++ R).take (ileft * isz) = naiveFill pat ileft := by
          rw [List.take_append_of_le_length
              (by rw [hFlen]; exact Nat.mul_le_mul_right isz (by omega)),
            show ileft * isz = ileft * pat.length by rw [hpat]]
          exact naiveFill_take pat c ileft (by omega)
        unfold writeAt
        rw [htake, ← hFlen, List.take_left]
        have hdrop : (naiveFill pat c ++ R).drop
              ((naiveFill pat c).length + (naiveFill pat ileft).length)
            = R.drop (ileft * isz) := by
          rw [List.drop_append, naiveFill_length, hpat]
        rw [hdrop, naiveFill_add]
      · rw [if_neg hil]
        have h0 : ileft = 0 := by omega
        subst h0
        simp

/-- Claim C10: with positive `item_size` and `num_items`, and a pattern and
destination large enough, `HDmemfill` leaves the destination equal to
`num_items` consecutive copies of the `item_size`-byte pattern — identical
to the naive one-item-at-a-time fill — with the bytes beyond the filled
region untouched; with `num_items = 0` or `item_size = 0` the destination
is returned unchanged. -/
theorem HDmemfill_spec (dest src : List Nat) (isz n : Nat) :
    (0 < isz → 0 < n → isz ≤ src.length → n * isz ≤ dest.length →
      HDmemfill dest src isz n = naiveFill (src.take isz) n ++ dest.drop (n * isz))
    ∧ (n = 0 ∨ isz = 0 → HDmemfill dest src isz n = dest) := by
  constructor
  · intro hisz hn hsrc hdest
    unfold HDmemfill
    rw [if_pos ⟨hn, hisz⟩]
    have hpat : (src.take isz).length = isz := by
      rw [List.length_take]
      omega
    have h0 : writeAt dest 0 (src.take isz)
        = naiveFill (src.take isz) 1 ++ dest.drop isz := by
      unfold writeAt
      simp [naiveFill, hpat]
    rw [h0]
    have hlen1 : (n - 1) * isz ≤ (dest.drop isz).length := by
      rw [Nat.sub_mul, one_mul, List.length_drop]
      exact Nat.sub_le_sub_right hdest isz
    have hloop := memfillLoop_eq isz (src.take isz) hpat (n - 1) 1
      (dest.drop isz) (by omega) hlen1 isz isz (by ring) (by ring)
    rw [hloop, show 1 + (n - 1) = n by omega, List.drop_drop,
      show isz + (n - 1) * isz = n * isz by
        rw [Nat.sub_mul, one_mul]
        exact Nat.add_sub_cancel' (Nat.le_mul_of_pos_left isz hn)]
  · intro h
    unfold HDmemfill
    rw [if_neg (by rcases h with h | h <;> omega)]

/-- Witness for C10 at concrete inputs: a 3-item fill of a 2-byte pattern
into a 7-byte buffer, and an empty fill. -/
theorem HDmemfill_spec_witness :
    HDmemfill [9, 9, 9, 9, 9, 9, 9] [1, 2, 3] 2 3 = [1, 2, 1, 2, 1, 2, 9]
    ∧ HDmemfill [9, 9, 9] [1, 2, 3] 2 0 = [9, 9, 9] := by
  refine ⟨?_, ?_⟩
  · have h := (HDmemfill_spec [9, 9, 9, 9, 9, 9, 9] [1, 2, 3] 2 3).1
      (by decide) (by decide) (by decide) (by decide)
    rw [h]
    rfl
  · exact (HDmemfill_spec [9, 9, 9] [1, 2, 3] 2 0).2 (Or.inl rfl)
